import Mathlib

/-!
Verification of the Smart Public Complaint Box core against its source.

Shallow embedding conventions:
* Text is a `List Nat` of Unicode code points (`strN` converts a Lean string
  literal).  Python's `str.lower` and the regex class `\s` also cover
  non-ASCII characters; the embedding uses the ASCII subset uniformly
  (`lowerN`, `isSpaceN`), which is the fragment the program's keyword lists,
  category names and status strings live in.
* `preprocess_text`, `predict_priority` are translated from
  `complaint_classifier.py`; `submit_complaint`, `update_complaint_status`
  from `complaint_service.py` over an explicit database state (`DBState`)
  mirroring the sqlite schema of `database.py`.  `CURRENT_TIMESTAMP` is a
  logical clock `now` advanced once per operation.
* The trained scikit-learn artifact is external to the repository; it is
  modelled from the spec as an opaque posterior-probability model
  (`Pipeline`), carrying exactly the contract the spec states for it.
-/

namespace ComplaintBox

/-- Code points of a string literal. -/
def strN (s : String) : List Nat := s.data.map Char.toNat

/-- ASCII whitespace, the set Python's `str.split` and the regex class of
whitespace split on (restricted to ASCII): space, tab, newline, vertical
tab, form feed, carriage return. -/
def isSpaceN (c : Nat) : Bool := c = 32 || c = 9 || c = 10 || c = 11 || c = 12 || c = 13

def nonSpaceN (c : Nat) : Bool := !isSpaceN c

/-- ASCII letter (either case), the class `[a-zA-Z]` of the source's regex. -/
def isAsciiAlphaN (c : Nat) : Bool := (97 ≤ c && c ≤ 122) || (65 ≤ c && c ≤ 90)

/-- A character survives `re.sub(r'[^a-zA-Z\s]', '', text)` iff it is an
ASCII letter or whitespace. -/
def keepN (c : Nat) : Bool := isAsciiAlphaN c || isSpaceN c

/-- Python's `str.lower` on a single code point, ASCII fragment. -/
def lowerN (c : Nat) : Nat := if 65 ≤ c ∧ c ≤ 90 then c + 32 else c

/-- `startsWithN t p`: `p` is a prefix of `t`. -/
def startsWithN : List Nat → List Nat → Bool
  | _, [] => true
  | [], _ :: _ => false
  | c :: cs, p :: ps => c == p && startsWithN cs ps

/-- Python's substring test `p in t`. -/
def containsSub : List Nat → List Nat → Bool
  | [], p => p.isEmpty
  | c :: rest, p => startsWithN (c :: rest) p || containsSub rest p

/-- `p` occurs contiguously inside `t`. -/
def IsSubstringOf (p t : List Nat) : Prop := ∃ pre post, t = pre ++ p ++ post

theorem startsWithN_iff (p t : List Nat) :
    startsWithN t p = true ↔ ∃ post, t = p ++ post := by
  induction p generalizing t with
  | nil =>
    cases t <;> simp [startsWithN]
  | cons q ps ih =>
    cases t with
    | nil => simp [startsWithN]
    | cons c cs =>
      simp only [startsWithN, Bool.and_eq_true, beq_iff_eq, ih, List.cons_append,
        List.cons.injEq]
      constructor
      · rintro ⟨rfl, post, rfl⟩; exact ⟨post, rfl, rfl⟩
      · rintro ⟨post, rfl, rfl⟩; exact ⟨rfl, post, rfl⟩

theorem containsSub_iff (t p : List Nat) :
    containsSub t p = true ↔ IsSubstringOf p t := by
  induction t with
  | nil =>
    simp only [containsSub, List.isEmpty_iff, IsSubstringOf]
    constructor
    · rintro rfl; exact ⟨[], [], rfl⟩
    · rintro ⟨pre, post, h⟩
      rcases List.append_eq_nil.mp (List.append_eq_nil.mp h.symm).1 with ⟨-, h2⟩
      exact h2
  | cons c rest ih =>
    simp only [containsSub, Bool.or_eq_true, startsWithN_iff, ih, IsSubstringOf]
    constructor
    · rintro (⟨post, h⟩ | ⟨pre, post, h⟩)
      · exact ⟨[], post, by simpa using h⟩
      · exact ⟨c :: pre, post, by simp [h]⟩
    · rintro ⟨pre, post, h⟩
      cases pre with
      | nil => exact Or.inl ⟨post, by simpa using h⟩
      | cons c' pre' =>
        simp only [List.cons_append, List.cons.injEq] at h
        exact Or.inr ⟨pre', post, h.2⟩

/-- The high-priority keyword list of `predict_priority`
(complaint_classifier.py, lines 232-236). -/
def high_priority_keywords : List (List Nat) :=
  [strN "urgent", strN "emergency", strN "dangerous", strN "accident", strN "health",
   strN "death", strN "fire", strN "flood", strN "burst", strN "leaking", strN "exposed",
   strN "fallen", strN "broken", strN "damaged", strN "contaminated", strN "overflow"]

/-- The medium-priority keyword list of `predict_priority`
(complaint_classifier.py, lines 239-242). -/
def medium_priority_keywords : List (List Nat) :=
  [strN "irregular", strN "frequent", strN "poor", strN "need", strN "required",
   strN "not working", strN "problem", strN "issue"]

/-- `ComplaintClassifier.predict_priority` (complaint_classifier.py, lines
227-255): lowercase the raw text, return High on the first high-list keyword
occurring as a substring, else Medium on the first medium-list keyword, else
Low.  The `category` parameter is accepted and ignored, as in the source.
The source's early-return loop is equivalent to `List.any` because every
match in a list yields the same result. -/
def predict_priority (complaint_text : List Nat) (category : List Nat) : List Nat :=
  let text_lower := complaint_text.map lowerN
  if high_priority_keywords.any (fun k => containsSub text_lower k) then strN "High"
  else if medium_priority_keywords.any (fun k => containsSub text_lower k) then strN "Medium"
  else strN "Low"

theorem any_containsSub_iff (ks : List (List Nat)) (s : List Nat) :
    (ks.any fun k => containsSub s k) = true ↔ ∃ k ∈ ks, IsSubstringOf k s := by
  simp only [List.any_eq_true, containsSub_iff]

/-- C1: for every input string, `predict_priority` lowercases the text and
returns High iff some keyword of the fixed high-urgency list occurs as a
substring, Medium iff none does but a medium-list keyword occurs, and Low iff
neither list matches; in particular text containing both a high-list and a
medium-list keyword yields High, the high list winning. -/
theorem priority_first_match (t c : List Nat) :
    (predict_priority t c = strN "High" ↔
      ∃ k ∈ high_priority_keywords, IsSubstringOf k (t.map lowerN))
    ∧ (predict_priority t c = strN "Medium" ↔
      (¬ ∃ k ∈ high_priority_keywords, IsSubstringOf k (t.map lowerN))
        ∧ ∃ k ∈ medium_priority_keywords, IsSubstringOf k (t.map lowerN))
    ∧ (predict_priority t c = strN "Low" ↔
      (¬ ∃ k ∈ high_priority_keywords, IsSubstringOf k (t.map lowerN))
        ∧ ¬ ∃ k ∈ medium_priority_keywords, IsSubstringOf k (t.map lowerN)) := by
  have hne1 : strN "High" ≠ strN "Medium" := by decide
  have hne2 : strN "High" ≠ strN "Low" := by decide
  have hne3 : strN "Medium" ≠ strN "Low" := by decide
  unfold predict_priority
  by_cases hA : (high_priority_keywords.any fun k => containsSub (t.map lowerN) k) = true
  · have hA' := (any_containsSub_iff _ _).mp hA
    simp only [hA, if_true]
    refine ⟨⟨fun _ => hA', fun _ => trivial⟩, ?_, ?_⟩
    · exact ⟨fun h => absurd h hne1, fun h => absurd hA' h.1⟩
    · exact ⟨fun h => absurd h hne2, fun h => absurd hA' h.1⟩
  · have hAfalse : (high_priority_keywords.any fun k => containsSub (t.map lowerN) k) = false :=
      Bool.eq_false_iff.mpr hA
    have hAno : ¬ ∃ k ∈ high_priority_keywords, IsSubstringOf k (t.map lowerN) :=
      fun h => hA ((any_containsSub_iff _ _).mpr h)
    simp only [hAfalse, Bool.false_eq_true, if_false]
    by_cases hB : (medium_priority_keywords.any fun k => containsSub (t.map lowerN) k) = true
    · have hB' := (any_containsSub_iff _ _).mp hB
      simp only [hB, if_true]
      refine ⟨?_, ⟨fun _ => ⟨hAno, hB'⟩, fun _ => trivial⟩, ?_⟩
      · exact ⟨fun h => absurd h.symm hne1, fun h => absurd h hAno⟩
      · exact ⟨fun h => absurd h hne3, fun h => absurd hB' h.2⟩
    · have hBfalse : (medium_priority_keywords.any fun k => containsSub (t.map lowerN) k) = false :=
        Bool.eq_false_iff.mpr hB
      have hBno : ¬ ∃ k ∈ medium_priority_keywords, IsSubstringOf k (t.map lowerN) :=
        fun h => hB ((any_containsSub_iff _ _).mpr h)
      simp only [hBfalse, Bool.false_eq_true, if_false]
      refine ⟨?_, ?_, ⟨fun _ => ⟨hAno, hBno⟩, fun _ => trivial⟩⟩
      · exact ⟨fun h => absurd h.symm hne2, fun h => absurd h hAno⟩
      · exact ⟨fun h => absurd h.symm hne3, fun h => absurd h.2 hBno⟩

/-- C7: the priority estimate depends only on the text; the category
parameter of `predict_priority` never influences the result. -/
theorem predict_priority_ignores_category (t c1 c2 : List Nat) :
    predict_priority t c1 = predict_priority t c2 := rfl

/-- Accumulator-based word splitter; `acc` holds the current word reversed.
Structural recursion keeps every concrete run kernel-reducible. -/
def pySplitAux : List Nat → List Nat → List (List Nat)
  | [], acc => if acc.isEmpty then [] else [acc.reverse]
  | c :: rest, acc =>
    if isSpaceN c then
      if acc.isEmpty then pySplitAux rest [] else acc.reverse :: pySplitAux rest []
    else
      pySplitAux rest (c :: acc)

/-- Python's `text.split()`: split on runs of whitespace, dropping empty
pieces. -/
def pySplit (l : List Nat) : List (List Nat) := pySplitAux l []

/-- Python's `' '.join(ws)`: the words separated by single spaces. -/
def joinSp : List (List Nat) → List Nat
  | [] => []
  | [w] => w
  | w :: v :: ws => w ++ 32 :: joinSp (v :: ws)

/-- `ComplaintClassifier.preprocess_text` (complaint_classifier.py, lines
33-41): lowercase, delete every character outside `[a-zA-Z\s]`, then
`' '.join(text.split())`. -/
def preprocess_text (text : List Nat) : List Nat :=
  joinSp (pySplit ((text.map lowerN).filter keepN))

theorem pySplit_nil : pySplit [] = [] := rfl

theorem pySplit_cons_space (c : Nat) (rest : List Nat) (h : isSpaceN c = true) :
    pySplit (c :: rest) = pySplit rest := by
  simp [pySplit, pySplitAux, h]

theorem pySplitAux_acc_ne (l : List Nat) :
    ∀ acc : List Nat, acc ≠ [] →
      pySplitAux l acc =
        (acc.reverse ++ l.takeWhile nonSpaceN) :: pySplit (l.dropWhile nonSpaceN) := by
  induction l with
  | nil =>
    intro acc hacc
    simp [pySplitAux, pySplit, List.isEmpty_iff, hacc]
  | cons c rest ih =>
    intro acc hacc
    by_cases hc : isSpaceN c = true
    · have hn : nonSpaceN c = false := by simp [nonSpaceN, hc]
      simp only [pySplitAux, hc, if_true, List.isEmpty_iff, hacc, if_neg hacc,
        List.takeWhile_cons, hn, List.dropWhile_cons]
      simp [pySplit, pySplitAux, hc]
    · have hc' : isSpaceN c = false := Bool.eq_false_iff.mpr hc
      have hn : nonSpaceN c = true := by simp [nonSpaceN, hc']
      simp only [pySplitAux, hc', Bool.false_eq_true, if_false]
      rw [ih (c :: acc) (by simp)]
      simp [List.takeWhile_cons, List.dropWhile_cons, hn]

theorem pySplit_cons_nonspace (c : Nat) (rest : List Nat) (h : isSpaceN c = false) :
    pySplit (c :: rest) =
      (c :: rest.takeWhile nonSpaceN) :: pySplit (rest.dropWhile nonSpaceN) := by
  have hstep : pySplit (c :: rest) = pySplitAux rest [c] := by
    simp [pySplit, pySplitAux, h]
  rw [hstep, pySplitAux_acc_ne rest [c] (by simp)]
  simp

theorem length_dropWhile_le' (p : Nat → Bool) (l : List Nat) :
    (l.dropWhile p).length ≤ l.length := by
  induction l with
  | nil => simp
  | cons a l ih =>
    rw [List.dropWhile_cons]
    by_cases h : p a = true
    · simp only [h, if_true]
      exact Nat.le_succ_of_le ih
    · simp [h]

/-- Induction principle following the word-splitting recursion: to prove `P`
for every list it suffices to prove it for `[]`, for a whitespace head given
`P` of the tail, and for a non-whitespace head given `P` of the tail with its
leading word removed. -/
theorem splitInd {P : List Nat → Prop} (h0 : P [])
    (hsp : ∀ c rest, isSpaceN c = true → P rest → P (c :: rest))
    (hns : ∀ c rest, isSpaceN c = false →
      P (rest.dropWhile nonSpaceN) → P (c :: rest)) :
    ∀ l, P l := by
  have key : ∀ n l, List.length l ≤ n → P l := by
    intro n
    induction n with
    | zero =>
      intro l hl
      have : l = [] := List.eq_nil_of_length_eq_zero (Nat.le_zero.mp hl)
      exact this ▸ h0
    | succ n ih =>
      intro l hl
      cases l with
      | nil => exact h0
      | cons c rest =>
        have hr : rest.length ≤ n := by
          simp only [List.length_cons] at hl
          omega
        by_cases hc : isSpaceN c = true
        · exact hsp c rest hc (ih rest hr)
        · exact hns c rest (Bool.eq_false_iff.mpr hc)
            (ih _ (le_trans (length_dropWhile_le' _ _) hr))
  intro l
  exact key l.length l le_rfl

theorem mem_of_mem_takeWhile' {p : Nat → Bool} {l : List Nat} {a : Nat}
    (h : a ∈ l.takeWhile p) : a ∈ l := by
  induction l with
  | nil => simp at h
  | cons b l ih =>
    rw [List.takeWhile_cons] at h
    by_cases hb : p b = true
    · simp only [hb, if_true, List.mem_cons] at h
      rcases h with rfl | h
      · exact List.mem_cons_self _ _
      · exact List.mem_cons_of_mem _ (ih h)
    · simp [hb] at h

theorem mem_of_mem_dropWhile' {p : Nat → Bool} {l : List Nat} {a : Nat}
    (h : a ∈ l.dropWhile p) : a ∈ l := by
  induction l with
  | nil => simp at h
  | cons b l ih =>
    rw [List.dropWhile_cons] at h
    by_cases hb : p b = true
    · simp only [hb, if_true] at h
      exact List.mem_cons_of_mem _ (ih h)
    · simpa [hb] using h

theorem pred_of_mem_takeWhile' {p : Nat → Bool} {l : List Nat} {a : Nat}
    (h : a ∈ l.takeWhile p) : p a = true := by
  induction l with
  | nil => simp at h
  | cons b l ih =>
    rw [List.takeWhile_cons] at h
    by_cases hb : p b = true
    · simp only [hb, if_true, List.mem_cons] at h
      rcases h with rfl | h
      · exact hb
      · exact ih h
    · simp [hb] at h

theorem takeWhile_eq_self' {p : Nat → Bool} {l : List Nat}
    (h : ∀ a ∈ l, p a = true) : l.takeWhile p = l := by
  induction l with
  | nil => rfl
  | cons b l ih =>
    rw [List.takeWhile_cons, if_pos (h b (List.mem_cons_self _ _))]
    rw [ih fun a ha => h a (List.mem_cons_of_mem _ ha)]

theorem dropWhile_eq_nil' {p : Nat → Bool} {l : List Nat}
    (h : ∀ a ∈ l, p a = true) : l.dropWhile p = [] := by
  induction l with
  | nil => rfl
  | cons b l ih =>
    rw [List.dropWhile_cons, if_pos (h b (List.mem_cons_self _ _))]
    exact ih fun a ha => h a (List.mem_cons_of_mem _ ha)

theorem head_dropWhile_false {p : Nat → Bool} {l m : List Nat} {c : Nat}
    (h : l.dropWhile p = c :: m) : p c = false := by
  induction l with
  | nil => simp at h
  | cons b l ih =>
    rw [List.dropWhile_cons] at h
    by_cases hb : p b = true
    · exact ih (by simpa [hb] using h)
    · rw [if_neg hb] at h
      injection h with h1 h2
      subst h1
      exact Bool.eq_false_iff.mpr hb

/-- Every word `pySplit` produces is nonempty and free of whitespace. -/
theorem pySplit_words_valid :
    ∀ l : List Nat, ∀ w ∈ pySplit l, w ≠ [] ∧ ∀ c ∈ w, isSpaceN c = false := by
  refine splitInd ?_ ?_ ?_
  · intro w hw
    simp [pySplit_nil] at hw
  · intro c rest hc ih w hw
    rw [pySplit_cons_space c rest hc] at hw
    exact ih w hw
  · intro c rest hc ih w hw
    rw [pySplit_cons_nonspace c rest hc] at hw
    rcases List.mem_cons.mp hw with rfl | hw
    · refine ⟨by simp, ?_⟩
      intro d hd
      rcases List.mem_cons.mp hd with rfl | hd
      · exact hc
      · have := pred_of_mem_takeWhile' hd
        simpa [nonSpaceN] using this
    · exact ih w hw

/-- Modelled from the spec (§4.1, steps 3): collapse each run of whitespace
to a single space and drop a trailing run; a leading run is trimmed by
`normalize_spec` below.  Written as an independent one-pass recursion so the
comparison with the source's split-and-join is meaningful. -/
def collapseTrim : List Nat → List Nat
  | [] => []
  | c :: rest =>
    if isSpaceN c then
      match collapseTrim rest with
      | [] => []
      | d :: tail => if d = 32 then d :: tail else 32 :: d :: tail
    else c :: collapseTrim rest

/-- Modelled from the spec (§4.1): lowercase, strip every character that is
not an ASCII letter or whitespace, collapse whitespace runs to single spaces
and trim. -/
def normalize_spec (text : List Nat) : List Nat :=
  List.dropWhile isSpaceN (collapseTrim ((text.map lowerN).filter keepN))

def headSpace : List Nat → Bool
  | [] => false
  | c :: _ => isSpaceN c

theorem collapseTrim_append_word {w m : List Nat}
    (hw : ∀ a ∈ w, isSpaceN a = false) :
    collapseTrim (w ++ m) = w ++ collapseTrim m := by
  induction w with
  | nil => rfl
  | cons a w ih =>
    have ha : isSpaceN a = false := hw a (List.mem_cons_self _ _)
    simp only [List.cons_append, collapseTrim, ha, Bool.false_eq_true, if_false]
    exact congrArg (a :: ·) (ih fun x hx => hw x (List.mem_cons_of_mem _ hx))

theorem joinSp_cons₂ (w v : List Nat) (vs : List (List Nat)) :
    joinSp (w :: v :: vs) = w ++ 32 :: joinSp (v :: vs) := rfl

/-- The key comparison between the source's split-and-rejoin and the spec's
run-collapsing pass: they agree except for one leading space kept by
`collapseTrim` when the input starts with whitespace and has a word. -/
theorem collapseTrim_vs_join :
    ∀ l : List Nat,
      (headSpace l = false → collapseTrim l = joinSp (pySplit l))
      ∧ (headSpace l = true →
        collapseTrim l =
          if (pySplit l).isEmpty then [] else 32 :: joinSp (pySplit l)) := by
  refine splitInd ?_ ?_ ?_
  · exact ⟨fun _ => rfl, fun h => by simp [headSpace] at h⟩
  · -- whitespace head
    intro c rest hc ih
    refine ⟨fun habs => ?_, fun _ => ?_⟩
    · rw [show headSpace (c :: rest) = isSpaceN c from rfl, hc] at habs
      exact absurd habs (by simp)
    · rw [pySplit_cons_space c rest hc]
      have hct : collapseTrim (c :: rest) =
          match collapseTrim rest with
          | [] => []
          | d :: tail => if d = 32 then d :: tail else 32 :: d :: tail := by
        simp [collapseTrim, hc]
      cases rest with
      | nil =>
        rw [hct]
        rfl
      | cons c1 rest1 =>
        by_cases h1 : isSpaceN c1 = true
        · have h2 := ih.2 (by rw [show headSpace (c1 :: rest1) = isSpaceN c1 from rfl, h1])
          cases hps : pySplit (c1 :: rest1) with
          | nil =>
            rw [hps] at h2
            simp only [List.isEmpty_nil, if_true] at h2
            rw [hct, h2]
            rfl
          | cons w ws =>
            rw [hps] at h2
            simp only [List.isEmpty_cons, Bool.false_eq_true, if_false] at h2
            rw [hct, h2]
            rfl
        · have h1' : isSpaceN c1 = false := Bool.eq_false_iff.mpr h1
          have h2 := ih.1 (by rw [show headSpace (c1 :: rest1) = isSpaceN c1 from rfl, h1'])
          rw [pySplit_cons_nonspace c1 rest1 h1'] at h2 ⊢
          have hc1ne : c1 ≠ 32 := by
            intro h
            rw [h] at h1'
            exact absurd h1' (by decide)
          cases hd : pySplit (rest1.dropWhile nonSpaceN) with
          | nil =>
            rw [hd] at h2
            have hj : joinSp [c1 :: rest1.takeWhile nonSpaceN] =
                c1 :: rest1.takeWhile nonSpaceN := rfl
            rw [hj] at h2
            rw [hct, h2]
            simp only [if_neg hc1ne, List.isEmpty_cons, Bool.false_eq_true, if_false]
            rfl
          | cons v vs =>
            rw [hd] at h2
            rw [joinSp_cons₂, List.cons_append] at h2
            rw [hct, h2]
            simp only [if_neg hc1ne, List.isEmpty_cons, Bool.false_eq_true, if_false]
            rw [joinSp_cons₂, List.cons_append]
  · -- non-whitespace head
    intro c rest hc ih
    refine ⟨fun _ => ?_, fun habs => ?_⟩
    swap
    · rw [show headSpace (c :: rest) = isSpaceN c from rfl, hc] at habs
      exact absurd habs (by simp)
    · have h0 : collapseTrim (c :: rest) = c :: collapseTrim rest := by
        simp [collapseTrim, hc]
      have htw : ∀ a ∈ rest.takeWhile nonSpaceN, isSpaceN a = false := by
        intro a ha
        have := pred_of_mem_takeWhile' ha
        simpa [nonSpaceN] using this
      have hsplit : collapseTrim rest =
          rest.takeWhile nonSpaceN ++ collapseTrim (rest.dropWhile nonSpaceN) := by
        conv_lhs => rw [← List.takeWhile_append_dropWhile nonSpaceN rest]
        exact collapseTrim_append_word htw
      rw [pySplit_cons_nonspace c rest hc]
      cases hdw : rest.dropWhile nonSpaceN with
      | nil =>
        rw [hdw] at hsplit
        simp only [collapseTrim, List.append_nil] at hsplit
        rw [h0, hsplit, pySplit_nil]
        rfl
      | cons d dtail =>
        have hdsp : isSpaceN d = true := by
          have := head_dropWhile_false hdw
          simpa [nonSpaceN] using this
        have hdP := (ih.2 (by rw [hdw, show headSpace (d :: dtail) = isSpaceN d from rfl, hdsp]))
        rw [hdw] at hsplit hdP
        cases hpd : pySplit (d :: dtail) with
        | nil =>
          rw [hpd] at hdP
          simp only [List.isEmpty_nil, if_true] at hdP
          rw [h0, hsplit, hdP, List.append_nil]
          rfl
        | cons v vs =>
          rw [hpd] at hdP
          simp only [List.isEmpty_cons, Bool.false_eq_true, if_false] at hdP
          rw [h0, hsplit, hdP, joinSp_cons₂, List.cons_append]

/-- The result of split-and-rejoin never starts with whitespace. -/
theorem dropWhile_joinSp_pySplit (l : List Nat) :
    List.dropWhile isSpaceN (joinSp (pySplit l)) = joinSp (pySplit l) := by
  cases h : pySplit l with
  | nil => rfl
  | cons w ws =>
    obtain ⟨hw, hwc⟩ := pySplit_words_valid l w (h ▸ List.mem_cons_self _ _)
    obtain ⟨c, w', rfl⟩ : ∃ c w', w = c :: w' := by
      cases w with
      | nil => exact absurd rfl hw
      | cons c w' => exact ⟨c, w', rfl⟩
    have hc : isSpaceN c = false := hwc c (List.mem_cons_self _ _)
    cases ws with
    | nil => simp [joinSp, List.dropWhile_cons, hc]
    | cons v vs => simp [joinSp_cons₂, List.cons_append, List.dropWhile_cons, hc]

/-- Whitespace-only input splits into no words. -/
theorem pySplit_all_space :
    ∀ l : List Nat, (∀ c ∈ l, isSpaceN c = true) → pySplit l = [] := by
  refine splitInd ?_ ?_ ?_
  · intro _; rfl
  · intro c rest hc ih h
    rw [pySplit_cons_space c rest hc]
    exact ih fun d hd => h d (List.mem_cons_of_mem _ hd)
  · intro c rest hc ih h
    exact absurd (h c (List.mem_cons_self _ _)) (by simp [hc])

/-- C4 (part): symbol-only text normalizes to the empty string. -/
theorem preprocess_no_letters (t : List Nat)
    (h : (t.all fun ch => !isAsciiAlphaN ch) = true) : preprocess_text t = [] := by
  unfold preprocess_text
  have hall : ∀ c ∈ (t.map lowerN).filter keepN, isSpaceN c = true := by
    intro c hcmem
    have hkeep : keepN c = true := List.of_mem_filter hcmem
    have hmem : c ∈ t.map lowerN := List.mem_of_mem_filter hcmem
    obtain ⟨x, hx, rfl⟩ := List.mem_map.mp hmem
    have hx' : isAsciiAlphaN x = false := by
      have := List.all_eq_true.mp h x hx
      simpa using this
    have hlow : lowerN x = x := by
      unfold lowerN
      rw [if_neg]
      intro hcon
      have halpha : isAsciiAlphaN x = true := by
        simp only [isAsciiAlphaN, Bool.or_eq_true, Bool.and_eq_true, decide_eq_true_eq]
        exact Or.inr ⟨hcon.1, hcon.2⟩
      rw [hx'] at halpha
      exact absurd halpha (by decide)
    rw [hlow] at hkeep ⊢
    simp only [keepN, hx', Bool.false_or] at hkeep
    exact hkeep
  rw [pySplit_all_space _ hall]
  rfl

/-- C4: `preprocess_text` equals the spec-side normalizer (lowercase, strip
non-letter non-whitespace, collapse whitespace runs, trim), and every empty
or symbol-only input normalizes to the empty string.  The function is total,
so normalization never raises. -/
theorem preprocess_matches_spec (t : List Nat) :
    preprocess_text t = normalize_spec t
    ∧ ((t.all fun ch => !isAsciiAlphaN ch) = true → preprocess_text t = []) := by
  refine ⟨?_, preprocess_no_letters t⟩
  unfold preprocess_text normalize_spec
  obtain ⟨h1, h2⟩ := collapseTrim_vs_join ((t.map lowerN).filter keepN)
  by_cases hh : headSpace ((t.map lowerN).filter keepN) = true
  · rw [h2 hh]
    cases hps : pySplit ((t.map lowerN).filter keepN) with
    | nil => rfl
    | cons w ws =>
      have hthis := dropWhile_joinSp_pySplit ((t.map lowerN).filter keepN)
      rw [hps] at hthis
      simp only [List.isEmpty_cons, Bool.false_eq_true, if_false, List.dropWhile_cons,
        show isSpaceN 32 = true from rfl, if_true]
      exact hthis.symm
  · rw [h1 (Bool.eq_false_iff.mpr hh)]
    exact (dropWhile_joinSp_pySplit _).symm

/-- C4 witness: a concrete symbol-only input normalizes to the empty string,
and a mixed input agrees with the spec normalizer. -/
theorem preprocess_matches_spec_witness : preprocess_text (strN "123 !?") = [] :=
  (preprocess_matches_spec (strN "123 !?")).2 (by decide)

theorem mem_joinSp {c : Nat} :
    ∀ ws : List (List Nat), c ∈ joinSp ws → c = 32 ∨ ∃ w ∈ ws, c ∈ w := by
  intro ws
  induction ws with
  | nil => intro h; simp [joinSp] at h
  | cons w vs ih =>
    cases vs with
    | nil =>
      intro h
      exact Or.inr ⟨w, List.mem_cons_self _ _, h⟩
    | cons v vs' =>
      intro h
      rw [joinSp_cons₂] at h
      rcases List.mem_append.mp h with h | h
      · exact Or.inr ⟨w, List.mem_cons_self _ _, h⟩
      · rcases List.mem_cons.mp h with rfl | h
        · exact Or.inl rfl
        · rcases ih h with h32 | ⟨u, hu, hcu⟩
          · exact Or.inl h32
          · exact Or.inr ⟨u, List.mem_cons_of_mem _ hu, hcu⟩

theorem mem_pySplit_subset :
    ∀ l : List Nat, ∀ w ∈ pySplit l, ∀ c ∈ w, c ∈ l := by
  refine splitInd ?_ ?_ ?_
  · intro w hw
    simp [pySplit_nil] at hw
  · intro a rest ha ih w hw c hc
    rw [pySplit_cons_space a rest ha] at hw
    exact List.mem_cons_of_mem _ (ih w hw c hc)
  · intro a rest ha ih w hw c hc
    rw [pySplit_cons_nonspace a rest ha] at hw
    rcases List.mem_cons.mp hw with rfl | hw
    · rcases List.mem_cons.mp hc with rfl | hc
      · exact List.mem_cons_self _ _
      · exact List.mem_cons_of_mem _ (mem_of_mem_takeWhile' hc)
    · exact List.mem_cons_of_mem _ (mem_of_mem_dropWhile' (ih w hw c hc))

theorem map_eq_self_of {f : Nat → Nat} :
    ∀ {l : List Nat}, (∀ a ∈ l, f a = a) → l.map f = l := by
  intro l
  induction l with
  | nil => intro _; rfl
  | cons a l ih =>
    intro h
    rw [List.map_cons, h a (List.mem_cons_self _ _),
      ih fun x hx => h x (List.mem_cons_of_mem _ hx)]

theorem lowerN_idem (c : Nat) : lowerN (lowerN c) = lowerN c := by
  unfold lowerN
  split_ifs <;> omega

theorem takeWhile_append_stop {w m : List Nat}
    (hw : ∀ a ∈ w, nonSpaceN a = true) :
    (w ++ 32 :: m).takeWhile nonSpaceN = w
    ∧ (w ++ 32 :: m).dropWhile nonSpaceN = 32 :: m := by
  induction w with
  | nil =>
    constructor
    · simp [List.takeWhile_cons, show nonSpaceN 32 = false from rfl]
    · simp [List.dropWhile_cons, show nonSpaceN 32 = false from rfl]
  | cons a w ih =>
    have ha : nonSpaceN a = true := hw a (List.mem_cons_self _ _)
    have ihw := ih fun x hx => hw x (List.mem_cons_of_mem _ hx)
    constructor
    · rw [List.cons_append, List.takeWhile_cons, if_pos ha, ihw.1]
    · rw [List.cons_append, List.dropWhile_cons, if_pos ha]
      exact ihw.2

/-- Splitting the rejoined words recovers the words, provided (as `pySplit`
guarantees) each word is nonempty and whitespace-free. -/
theorem pySplit_joinSp :
    ∀ ws : List (List Nat),
      (∀ w ∈ ws, w ≠ [] ∧ ∀ c ∈ w, isSpaceN c = false) → pySplit (joinSp ws) = ws := by
  intro ws
  induction ws with
  | nil => intro _; rfl
  | cons w vs ih =>
    intro h
    obtain ⟨hw, hwc⟩ := h w (List.mem_cons_self _ _)
    obtain ⟨c, w', rfl⟩ : ∃ c w', w = c :: w' := by
      cases w with
      | nil => exact absurd rfl hw
      | cons c w' => exact ⟨c, w', rfl⟩
    have hc : isSpaceN c = false := hwc c (List.mem_cons_self _ _)
    have hw' : ∀ a ∈ w', nonSpaceN a = true := by
      intro a ha
      simp [nonSpaceN, hwc a (List.mem_cons_of_mem _ ha)]
    cases vs with
    | nil =>
      show pySplit (c :: w') = [c :: w']
      rw [pySplit_cons_nonspace c w' hc,
        takeWhile_eq_self' hw', dropWhile_eq_nil' hw', pySplit_nil]
    | cons v vs' =>
      rw [joinSp_cons₂, List.cons_append, pySplit_cons_nonspace c _ hc]
      obtain ⟨ht, hd⟩ := takeWhile_append_stop hw'
      rw [ht, hd, pySplit_cons_space 32 _ (by decide)]
      rw [ih fun u hu => h u (List.mem_cons_of_mem _ hu)]

/-- C5: normalization is idempotent;
`preprocess_text (preprocess_text t) = preprocess_text t` for every text. -/
theorem preprocess_idempotent (t : List Nat) :
    preprocess_text (preprocess_text t) = preprocess_text t := by
  have hchars : ∀ c ∈ preprocess_text t,
      c = 32 ∨ c ∈ (t.map lowerN).filter keepN := by
    intro c hc
    unfold preprocess_text at hc
    rcases mem_joinSp _ hc with h32 | ⟨w, hw, hcw⟩
    · exact Or.inl h32
    · exact Or.inr (mem_pySplit_subset _ w hw c hcw)
  have hlow : ∀ c ∈ preprocess_text t, lowerN c = c := by
    intro c hc
    rcases hchars c hc with rfl | hmem
    · rfl
    · obtain ⟨x, _, rfl⟩ := List.mem_map.mp (List.mem_of_mem_filter hmem)
      exact lowerN_idem x
  have hkeep : ∀ c ∈ preprocess_text t, keepN c = true := by
    intro c hc
    rcases hchars c hc with rfl | hmem
    · rfl
    · exact List.of_mem_filter hmem
  have hmap : (preprocess_text t).map lowerN = preprocess_text t :=
    map_eq_self_of hlow
  have hfilter : (preprocess_text t).filter keepN = preprocess_text t :=
    List.filter_eq_self.mpr hkeep
  show joinSp (pySplit (((preprocess_text t).map lowerN).filter keepN)) = preprocess_text t
  rw [hmap, hfilter]
  show joinSp (pySplit (joinSp (pySplit ((t.map lowerN).filter keepN)))) = _
  rw [pySplit_joinSp _ (pySplit_words_valid _)]
  rfl

/-- The fixed category list `self.categories` of `ComplaintClassifier.__init__`
(complaint_classifier.py, lines 25-31). -/
def categoriesNames : List (List Nat) :=
  [strN "Water Supply", strN "Road Maintenance", strN "Electricity",
   strN "Sanitation", strN "Other"]

/-- Modelled from the spec (§3 ClassifierModel, §4.2): the trained
scikit-learn artifact is external to the repository, so it is embedded as an
opaque model exposing a posterior probability per category (nonnegative,
summing to 1 over the category set) and a predicted category that attains
the maximal posterior. -/
structure Pipeline where
  proba : List Nat → List Nat → ℚ
  predictCat : List Nat → List Nat
  nonneg : ∀ t c, 0 ≤ proba t c
  sum_one : ∀ t, (categoriesNames.map (proba t)).sum = 1
  predict_mem : ∀ t, predictCat t ∈ categoriesNames
  predict_max : ∀ t c, c ∈ categoriesNames → proba t c ≤ proba t (predictCat t)

/-- Python's `max` over a list of probabilities (`max(probabilities)` in
`predict`); the 0 seed of the empty case is never reached on the nonempty
category list. -/
def listMax : List ℚ → ℚ
  | [] => 0
  | x :: xs => xs.foldl max x

/-- `ComplaintClassifier`: `self.pipeline` is `None` until `train` or
`load_model` installs a model. -/
structure ComplaintClassifier where
  pipeline : Option Pipeline

/-- The Python exception `predict` raises when `self.pipeline is None`
(`ValueError("Model not trained or loaded")`, the spec's
`ModelNotReadyError`). -/
inductive PyErr where
  | valueError
deriving DecidableEq

/-- The successful body of `ComplaintClassifier.predict` (complaint_classifier.py,
lines 210-225): preprocess, predict a category, confidence is the maximal
predicted probability. -/
def predictPure (p : Pipeline) (text : List Nat) : List Nat × ℚ :=
  let processed := preprocess_text text
  (p.predictCat processed, listMax (categoriesNames.map (p.proba processed)))

/-- `ComplaintClassifier.predict` with its guard: raises (returns an error)
iff no model is present. -/
def predictE (clf : ComplaintClassifier) (text : List Nat) :
    Except PyErr (List Nat × ℚ) :=
  match clf.pipeline with
  | none => Except.error PyErr.valueError
  | some p => Except.ok (predictPure p text)

theorem le_foldl_max : ∀ (xs : List ℚ) (x : ℚ), x ≤ xs.foldl max x := by
  intro xs
  induction xs with
  | nil => intro x; exact le_rfl
  | cons y ys ih =>
    intro x
    exact le_trans (le_max_left x y) (ih (max x y))

theorem foldl_max_le : ∀ (xs : List ℚ) (x B : ℚ),
    x ≤ B → (∀ y ∈ xs, y ≤ B) → xs.foldl max x ≤ B := by
  intro xs
  induction xs with
  | nil => intro x B hx _; exact hx
  | cons y ys ih =>
    intro x B hx hall
    exact ih (max x y) B (max_le hx (hall y (List.mem_cons_self _ _)))
      fun z hz => hall z (List.mem_cons_of_mem _ hz)

theorem listMax_nonneg {l : List ℚ} (h : ∀ x ∈ l, 0 ≤ x) : 0 ≤ listMax l := by
  cases l with
  | nil => exact le_rfl
  | cons x xs =>
    exact le_trans (h x (List.mem_cons_self _ _)) (le_foldl_max xs x)

theorem listMax_le {l : List ℚ} {B : ℚ} (hB : 0 ≤ B) (h : ∀ x ∈ l, x ≤ B) :
    listMax l ≤ B := by
  cases l with
  | nil => exact hB
  | cons x xs =>
    exact foldl_max_le xs x B (h x (List.mem_cons_self _ _))
      fun z hz => h z (List.mem_cons_of_mem _ hz)

/-- C6: `predict` fails iff it is invoked before a model is trained or
loaded; with a model present it returns, for every input text, a category
of the fixed category set together with a confidence in the interval [0,1],
without failing. -/
theorem predict_ready_and_confidence_bounds (clf : ComplaintClassifier)
    (text : List Nat) :
    ((∃ e, predictE clf text = Except.error e) ↔ clf.pipeline = none)
    ∧ (∀ p, clf.pipeline = some p →
      ∃ cat conf, predictE clf text = Except.ok (cat, conf)
        ∧ cat ∈ categoriesNames ∧ 0 ≤ conf ∧ conf ≤ 1) := by
  obtain ⟨pl⟩ := clf
  cases pl with
  | none =>
    refine ⟨⟨fun _ => rfl, fun _ => ⟨PyErr.valueError, rfl⟩⟩, ?_⟩
    intro p hp
    exact absurd hp (by simp)
  | some p =>
    constructor
    · constructor
      · rintro ⟨e, he⟩
        exact absurd he (by simp [predictE])
      · intro h
        exact absurd h (by simp)
    · intro p' hp'
      have hpp : p' = p := by
        have := hp'
        simp only [Option.some.injEq] at this
        exact this.symm
      subst hpp
      refine ⟨p'.predictCat (preprocess_text text),
        listMax (categoriesNames.map (p'.proba (preprocess_text text))), rfl,
        p'.predict_mem _, ?_, ?_⟩
      · refine listMax_nonneg ?_
        intro x hx
        obtain ⟨c, _, rfl⟩ := List.mem_map.mp hx
        exact p'.nonneg _ c
      · refine listMax_le (by norm_num) ?_
        intro x hx
        obtain ⟨c, hc, rfl⟩ := List.mem_map.mp hx
        calc p'.proba (preprocess_text text) c
            ≤ (categoriesNames.map (p'.proba (preprocess_text text))).sum := by
              refine List.single_le_sum ?_ _ (List.mem_map_of_mem _ hc)
              intro y hy
              obtain ⟨d, _, rfl⟩ := List.mem_map.mp hy
              exact p'.nonneg _ d
          _ = 1 := p'.sum_one _

/-- A concrete model: the uniform posterior over the five categories. -/
def uniformPipeline : Pipeline where
  proba := fun _ _ => 1 / 5
  predictCat := fun _ => strN "Water Supply"
  nonneg := by intro t c; norm_num
  sum_one := by intro t; simp [categoriesNames]; norm_num
  predict_mem := by intro t; simp [categoriesNames]
  predict_max := by intro t c _; exact le_rfl

/-- C6 witness: at a concrete classifier without a model `predict` fails, and
at one holding the uniform model it returns an in-range confidence. -/
theorem predict_ready_and_confidence_bounds_witness :
    (∃ e, predictE ⟨none⟩ (strN "") = Except.error e)
    ∧ ∃ cat conf, predictE ⟨some uniformPipeline⟩ (strN "") = Except.ok (cat, conf)
        ∧ cat ∈ categoriesNames ∧ 0 ≤ conf ∧ conf ≤ 1 :=
  ⟨(predict_ready_and_confidence_bounds ⟨none⟩ (strN "")).1.mpr rfl,
   (predict_ready_and_confidence_bounds ⟨some uniformPipeline⟩ (strN "")).2
     uniformPipeline rfl⟩

/-- One row of the `complaints` table (database.py, lines 69-84). -/
structure ComplaintRow where
  complaint_id : Nat
  user_id : Nat
  title : List Nat
  description : List Nat
  location : Option (List Nat)
  category_id : Option Nat
  priority : List Nat
  status : List Nat
  created_at : Nat
  updated_at : Nat
deriving DecidableEq

/-- The database state the service operates on: the seeded lookup tables and
the mutable `complaints`/`assignments` tables, plus the autoincrement
counter and a logical clock standing for `CURRENT_TIMESTAMP`. -/
structure DBState where
  categories : List (Nat × List Nat)
  departments : List (Nat × Nat)
  complaints : List ComplaintRow
  assignments : List (Nat × Nat)
  nextComplaintId : Nat
  now : Nat
deriving DecidableEq

/-- `SELECT category_id FROM categories WHERE name = ?` followed by taking
row 0 (complaint_service.py, lines 58-64); `none` when no row matches. -/
def lookupCategoryId (cats : List (Nat × List Nat)) (name : List Nat) : Option Nat :=
  (cats.find? fun rc => rc.2 == name).map fun rc => rc.1

/-- `SELECT department_id FROM departments WHERE category_id = ?` followed by
taking row 0 (complaint_service.py, lines 80-84). -/
def lookupDepartmentId (depts : List (Nat × Nat)) (cid : Nat) : Option Nat :=
  (depts.find? fun d => d.2 == cid).map fun d => d.1

/-- The complaint row `submit_complaint` inserts (complaint_service.py,
lines 49-76): category and priority inferred from the description, status
`'Submitted'`, `category_id` null when the predicted name resolves to no
configured category. -/
def submittedRow (p : Pipeline) (st : DBState) (user_id : Nat)
    (title description : List Nat) (location : Option (List Nat)) : ComplaintRow :=
  { complaint_id := st.nextComplaintId
    user_id := user_id
    title := title
    description := description
    location := location
    category_id := lookupCategoryId st.categories (p.predictCat (preprocess_text description))
    priority := predict_priority description (p.predictCat (preprocess_text description))
    status := strN "Submitted"
    created_at := st.now
    updated_at := st.now }

/-- The dictionary `submit_complaint` returns (complaint_service.py, lines
91-97). -/
structure SubmitResult where
  complaint_id : Nat
  category : List Nat
  priority : List Nat
  confidence : ℚ
  status : List Nat

/-- `ComplaintService.submit_complaint` (complaint_service.py, lines 49-97):
classify the description, look the category up, insert the complaint (always,
with a possibly null `category_id`), auto-assign a department when the
category resolved and has one.  The service's constructor guarantees a model
is present, so the pipeline is a plain argument. -/
def submit_complaint (p : Pipeline) (st : DBState) (user_id : Nat)
    (title description : List Nat) (location : Option (List Nat)) :
    DBState × SubmitResult :=
  let pr := predictPure p description
  let row := submittedRow p st user_id title description location
  let newAssign : List (Nat × Nat) :=
    match row.category_id with
    | none => []
    | some cid =>
      match lookupDepartmentId st.departments cid with
      | none => []
      | some did => [(row.complaint_id, did)]
  ({ categories := st.categories
     departments := st.departments
     complaints := st.complaints ++ [row]
     assignments := st.assignments ++ newAssign
     nextComplaintId := st.nextComplaintId + 1
     now := st.now + 1 },
   { complaint_id := row.complaint_id
     category := pr.1
     priority := row.priority
     confidence := pr.2
     status := strN "Submitted" })

/-- `ComplaintService.update_complaint_status` (complaint_service.py, lines
141-155): `UPDATE complaints SET status = ?, updated_at = CURRENT_TIMESTAMP
WHERE complaint_id = ?`, then return `True`; the stored new status is the
caller's string, unvalidated, and a vacuous match is still a success. -/
def update_complaint_status (st : DBState) (complaint_id : Nat)
    (new_status : List Nat) : DBState × Bool :=
  ({ st with
      complaints := st.complaints.map fun r =>
        if r.complaint_id = complaint_id then
          { r with status := new_status, updated_at := st.now }
        else r
      now := st.now + 1 },
   true)

/-- The category and department tables as `Database.seed_data` inserts them
(database.py, lines 112-153). -/
def seededCategories : List (Nat × List Nat) :=
  [(1, strN "Water Supply"), (2, strN "Road Maintenance"), (3, strN "Electricity"),
   (4, strN "Sanitation"), (5, strN "Other")]

def seededDepartments : List (Nat × Nat) := [(1, 1), (2, 2), (3, 3), (4, 4), (5, 5)]

/-- The freshly initialized and seeded database. -/
def initState : DBState :=
  { categories := seededCategories
    departments := seededDepartments
    complaints := []
    assignments := []
    nextComplaintId := 1
    now := 0 }

/-- States reachable from the seeded database by submitting complaints and
updating statuses, with a fixed loaded model. -/
inductive Reachable (p : Pipeline) : DBState → Prop
  | init : Reachable p initState
  | submit (st : DBState) (u : Nat) (ti de : List Nat) (lo : Option (List Nat)) :
      Reachable p st → Reachable p (submit_complaint p st u ti de lo).1
  | setStatus (st : DBState) (cid : Nat) (s : List Nat) :
      Reachable p st → Reachable p (update_complaint_status st cid s).1

/-- The status set the spec closes the lifecycle over. -/
def allowedStatuses : List (List Nat) :=
  [strN "Submitted", strN "InProgress", strN "Resolved", strN "Rejected"]

/-- A concrete run: one submission, then the status update the repository's
own test performs (`test_system.py`, line 103, status string "In Progress"). -/
def exSubmitState : DBState :=
  (submit_complaint uniformPipeline initState 1 (strN "Title") (strN "desc") none).1

def exBadState : DBState :=
  (update_complaint_status exSubmitState 1 (strN "In Progress")).1

/-- C3 counterexample: a state reachable by one submission and one
`update_complaint_status` call — the very call the repository's test makes —
holds a complaint whose status "In Progress" lies outside the closed set
claimed, because the code stores the caller's string unvalidated. -/
theorem status_outside_set_reachable :
    Reachable uniformPipeline exBadState
    ∧ exBadState.complaints.map (fun r => r.status) = [strN "In Progress"]
    ∧ strN "In Progress" ∉ allowedStatuses :=
  ⟨Reachable.setStatus _ 1 _ (Reachable.submit _ 1 _ _ none Reachable.init),
   by decide, by decide⟩

/-- States reachable when every status update uses a string of the given
set. -/
inductive ReachableWithin (p : Pipeline) (S : List (List Nat)) : DBState → Prop
  | init : ReachableWithin p S initState
  | submit (st : DBState) (u : Nat) (ti de : List Nat) (lo : Option (List Nat)) :
      ReachableWithin p S st → ReachableWithin p S (submit_complaint p st u ti de lo).1
  | setStatus (st : DBState) (cid : Nat) (s : List Nat) (hs : s ∈ S) :
      ReachableWithin p S st → ReachableWithin p S (update_complaint_status st cid s).1

/-- C3 amended: submission always stores status `'Submitted'` and
`update_complaint_status` stores exactly the caller's string, so the claimed
closed-set invariant holds precisely on runs whose update calls use strings
of the set; the code itself enforces nothing. -/
theorem status_closed_for_allowed_updates (p : Pipeline) (st : DBState)
    (h : ReachableWithin p allowedStatuses st) :
    ∀ r ∈ st.complaints, r.status ∈ allowedStatuses := by
  induction h with
  | init =>
    intro r hr
    simp [initState] at hr
  | submit st' u ti de lo _ ih =>
    intro r hr
    have hr' : r ∈ st'.complaints ++ [submittedRow p st' u ti de lo] := hr
    rcases List.mem_append.mp hr' with hmem | hmem
    · exact ih r hmem
    · have : r = submittedRow p st' u ti de lo := by simpa using hmem
      rw [this]
      show strN "Submitted" ∈ allowedStatuses
      decide
  | setStatus st' cid s hs _ ih =>
    intro r hr
    have hr' : r ∈ st'.complaints.map fun x =>
        if x.complaint_id = cid then { x with status := s, updated_at := st'.now }
        else x := hr
    obtain ⟨x, hx, rfl⟩ := List.mem_map.mp hr'
    by_cases hid : x.complaint_id = cid
    · simpa [hid] using hs
    · simpa [hid] using ih x hx

def exGoodState : DBState :=
  (update_complaint_status exSubmitState 1 (strN "Resolved")).1

/-- C3 amended witness: a concrete two-step run whose update uses a string of
the set keeps every stored status inside the set. -/
theorem status_closed_for_allowed_updates_witness :
    strN "Resolved" ∈ allowedStatuses :=
  status_closed_for_allowed_updates uniformPipeline exGoodState
    (ReachableWithin.setStatus _ 1 _ (by decide)
      (ReachableWithin.submit _ 1 _ _ none ReachableWithin.init))
    { complaint_id := 1, user_id := 1, title := strN "Title",
      description := strN "desc", location := none, category_id := some 1,
      priority := strN "Low", status := strN "Resolved",
      created_at := 0, updated_at := 1 }
    (by decide)

theorem predict_priority_cases (t c : List Nat) :
    predict_priority t c = strN "High" ∨ predict_priority t c = strN "Medium"
    ∨ predict_priority t c = strN "Low" := by
  by_cases hA : (high_priority_keywords.any fun k => containsSub (t.map lowerN) k) = true
  · left
    simp [predict_priority, hA]
  · by_cases hB : (medium_priority_keywords.any fun k => containsSub (t.map lowerN) k) = true
    · right; left
      simp [predict_priority, hA, hB]
    · right; right
      simp [predict_priority, hA, hB]

/-- A database whose `categories` table was never seeded: the predicted
category name resolves to no row. -/
def emptyCatState : DBState :=
  { categories := []
    departments := []
    complaints := []
    assignments := []
    nextComplaintId := 1
    now := 0 }

/-- C2 counterexample: a completed submission against a database in which the
predicted category cannot be resolved records exactly one complaint whose
`category_id` is null — the code stores `None`, it does not fall back to
'Other'. -/
theorem submit_null_category_counterexample :
    ((submit_complaint uniformPipeline emptyCatState 1 (strN "t") (strN "water") none).1.complaints.map
      fun r => r.category_id) = [none]
    ∧ ((submit_complaint uniformPipeline emptyCatState 1 (strN "t") (strN "water") none).1.complaints.length = 1) := by
  constructor
  · decide
  · decide

/-- C2 amended: once `submit_complaint` completes the complaint is always
recorded (intake is never blocked) with status `'Submitted'` and exactly one
non-null priority from the fixed priority set; its category, however, is left
null exactly when the predicted name resolves to no configured category — it
does not fall back to 'Other'. -/
theorem submit_records_with_nullable_category (p : Pipeline) (st : DBState)
    (u : Nat) (ti de : List Nat) (lo : Option (List Nat)) :
    (submit_complaint p st u ti de lo).1.complaints
        = st.complaints ++ [submittedRow p st u ti de lo]
    ∧ (submittedRow p st u ti de lo).status = strN "Submitted"
    ∧ ((submittedRow p st u ti de lo).priority = strN "High"
        ∨ (submittedRow p st u ti de lo).priority = strN "Medium"
        ∨ (submittedRow p st u ti de lo).priority = strN "Low")
    ∧ ((submittedRow p st u ti de lo).category_id = none
        ↔ lookupCategoryId st.categories (p.predictCat (preprocess_text de)) = none) :=
  ⟨rfl, rfl, predict_priority_cases de (p.predictCat (preprocess_text de)), Iff.rfl⟩

/-- C9: `update_complaint_status` rewrites only the status and last-updated
timestamp of rows carrying the given identifier; every other field of every
row, rows with other identifiers entirely, and all other tables are
unchanged — in particular the category and priority set at submission are
never re-inferred. -/
theorem update_status_frame (st : DBState) (cid : Nat) (s : List Nat)
    (i : Nat) (old new : ComplaintRow)
    (hold : st.complaints[i]? = some old)
    (hnew : (update_complaint_status st cid s).1.complaints[i]? = some new) :
    new.complaint_id = old.complaint_id
    ∧ new.user_id = old.user_id
    ∧ new.title = old.title
    ∧ new.description = old.description
    ∧ new.location = old.location
    ∧ new.category_id = old.category_id
    ∧ new.priority = old.priority
    ∧ new.created_at = old.created_at
    ∧ (old.complaint_id ≠ cid → new = old)
    ∧ (old.complaint_id = cid → new.status = s ∧ new.updated_at = st.now)
    ∧ (update_complaint_status st cid s).1.categories = st.categories
    ∧ (update_complaint_status st cid s).1.departments = st.departments
    ∧ (update_complaint_status st cid s).1.assignments = st.assignments
    ∧ (update_complaint_status st cid s).1.nextComplaintId = st.nextComplaintId := by
  have hmap : (update_complaint_status st cid s).1.complaints[i]?
      = (st.complaints[i]?).map fun r =>
        if r.complaint_id = cid then { r with status := s, updated_at := st.now }
        else r := List.getElem?_map _ _ _
  rw [hmap, hold] at hnew
  simp only [Option.map_some', Option.some.injEq] at hnew
  by_cases hid : old.complaint_id = cid
  · rw [if_pos hid] at hnew
    subst hnew
    refine ⟨rfl, rfl, rfl, rfl, rfl, rfl, rfl, rfl, fun hne => absurd hid hne,
      fun _ => ⟨rfl, rfl⟩, rfl, rfl, rfl, rfl⟩
  · rw [if_neg hid] at hnew
    subst hnew
    exact ⟨rfl, rfl, rfl, rfl, rfl, rfl, rfl, rfl, fun _ => rfl,
      fun heq => absurd heq hid, rfl, rfl, rfl, rfl⟩

def witnessRow : ComplaintRow :=
  { complaint_id := 1, user_id := 1, title := strN "t", description := strN "d",
    location := none, category_id := some 2, priority := strN "Low",
    status := strN "Submitted", created_at := 3, updated_at := 3 }

def witnessState : DBState :=
  { categories := seededCategories
    departments := seededDepartments
    complaints := [witnessRow]
    assignments := []
    nextComplaintId := 2
    now := 5 }

/-- C9 witness: updating the stored complaint's status changes the status and
timestamp and preserves the remaining fields at a concrete state. -/
theorem update_status_frame_witness :
    ({ witnessRow with status := strN "Resolved", updated_at := 5 } : ComplaintRow).priority
        = witnessRow.priority
    ∧ ({ witnessRow with status := strN "Resolved", updated_at := 5 } : ComplaintRow).status
        = strN "Resolved" := by
  have h := update_status_frame witnessState 1 (strN "Resolved") 0 witnessRow
    { witnessRow with status := strN "Resolved", updated_at := 5 } (by decide) (by decide)
  obtain ⟨-, -, -, -, -, -, h7, -, -, h10, -⟩ := h
  exact ⟨h7, (h10 rfl).1⟩

/-- C10: `update_complaint_status` reports success for every identifier and
status string whenever storage does not fail (which the embedded store never
does), including when no stored complaint carries the identifier; in that
zero-rows-matched case the whole store is unchanged. -/
theorem update_status_zero_rows_ok (st : DBState) (cid : Nat) (s : List Nat) :
    (update_complaint_status st cid s).2 = true
    ∧ ((∀ r ∈ st.complaints, r.complaint_id ≠ cid) →
      (update_complaint_status st cid s).1.complaints = st.complaints
      ∧ (update_complaint_status st cid s).1.categories = st.categories
      ∧ (update_complaint_status st cid s).1.departments = st.departments
      ∧ (update_complaint_status st cid s).1.assignments = st.assignments
      ∧ (update_complaint_status st cid s).1.nextComplaintId = st.nextComplaintId) := by
  refine ⟨rfl, fun h => ⟨?_, rfl, rfl, rfl, rfl⟩⟩
  show st.complaints.map (fun r =>
      if r.complaint_id = cid then { r with status := s, updated_at := st.now }
      else r) = st.complaints
  have : ∀ r ∈ st.complaints,
      (if r.complaint_id = cid then { r with status := s, updated_at := st.now }
        else r) = r := by
    intro r hr
    rw [if_neg (h r hr)]
  calc st.complaints.map (fun r =>
        if r.complaint_id = cid then { r with status := s, updated_at := st.now }
        else r)
      = st.complaints.map id := List.map_congr_left this
    _ = st.complaints := List.map_id _

/-- C10 witness: updating a missing identifier at a concrete state returns
success and leaves the complaints table unchanged. -/
theorem update_status_zero_rows_ok_witness :
    (update_complaint_status witnessState 99 (strN "Rejected")).2 = true
    ∧ (update_complaint_status witnessState 99 (strN "Rejected")).1.complaints
      = witnessState.complaints := by
  have h := update_status_zero_rows_ok witnessState 99 (strN "Rejected")
  exact ⟨h.1, (h.2 (by decide)).1⟩

end ComplaintBox
